import Mathlib

/-!
Shallow embedding of the NVR frontend's state-management and helper code:
the camera-selection store, the auth request interceptor, the color-mode
provider, the onboarding mutation handlers, the video.js option builder and
the URL-parameter helpers, together with proofs about them.

JavaScript objects are modelled as association lists that keep insertion
order (assignment to an existing key updates it in place, a new key is
appended at the end), which matches the enumeration order of string-keyed
JavaScript objects.  JavaScript strings are `String`; where character-level
reasoning is needed (`removeURLParameter`) they are `List Char`.  JavaScript
truthiness of a possibly-absent string (`undefined`/empty are falsy) is made
explicit through `jsTruthy`.
-/

/-- Ordered association list lookup: value of the first entry whose key is
`k`, mirroring JavaScript property access `obj[k]` (`none` for absent). -/
def lookupKey (k : String) : List (String × α) → Option α
  | [] => none
  | (k', v) :: rest => if k' = k then some v else lookupKey k rest

/-- `true` when the object has the key, mirroring `k in obj`. -/
def hasKey (k : String) (m : List (String × α)) : Bool :=
  (lookupKey k m).isSome

/-- JavaScript property assignment `obj[k] = v`: an existing key keeps its
position and is overwritten, a new key is appended at the end. -/
def setKey (k : String) (v : α) (m : List (String × α)) : List (String × α) :=
  if hasKey k m then m.map (fun p => if p.1 = k then (k, v) else p)
  else m ++ [(k, v)]

/-- The keys of an object in enumeration order (`Object.keys`). -/
def keysOf (m : List (String × α)) : List String :=
  m.map (fun p => p.1)

/-- JavaScript truthiness of a string that may be `undefined`/`null`:
absent and empty strings are falsy, all other strings truthy. -/
def jsTruthy (s : Option String) : Bool :=
  match s with
  | none => false
  | some v => v != ""

/-- Substring test on lists, mirroring JavaScript `String.includes`. -/
def listHasInfix [BEq α] (sub : List α) : List α → Bool
  | [] => sub.isEmpty
  | c :: rest => sub.isPrefixOf (c :: rest) || listHasInfix sub rest

/-- JavaScript `u.includes(sub)`. -/
def strIncludes (u sub : String) : Bool :=
  listHasInfix sub.toList u.toList

/-! ### Camera-selection store (`useCameraStore`)

From the Zustand store: `cameras` is an object mapping camera identifiers to
booleans, `selectedCameras` the identifiers whose entry is `true`, and
`selectionOrder` the identifiers in the order they were selected. -/

/-- `Object.entries(m).filter(([_k, v]) => v).map(([k]) => k)`. -/
def trueKeys (m : List (String × Bool)) : List String :=
  (m.filter (fun p => p.2)).map (fun p => p.1)

structure CameraState where
  cameras : List (String × Bool)
  selectedCameras : List String
  selectionOrder : List String
deriving DecidableEq, Repr

/-- The store's initial state. -/
def initialCameraState : CameraState :=
  { cameras := [], selectedCameras := [], selectionOrder := [] }

/-- `toggleCamera(cameraIdentifier)`: flip the (possibly absent, hence falsy)
entry, recompute `selectedCameras` from the new object, and either push the
identifier onto `selectionOrder` or filter it out. -/
def toggleCamera (cameraIdentifier : String) (s : CameraState) : CameraState :=
  let newVal := ! ((lookupKey cameraIdentifier s.cameras).getD false)
  let newCameras := setKey cameraIdentifier newVal s.cameras
  let newSelectionOrder :=
    if newVal then s.selectionOrder ++ [cameraIdentifier]
    else s.selectionOrder.filter (fun id => id != cameraIdentifier)
  { cameras := newCameras
    selectedCameras := trueKeys newCameras
    selectionOrder := newSelectionOrder }

/-- `selectSingleCamera(cameraIdentifier)`: every existing key is set to
whether it equals the identifier (`Object.keys(...).forEach`), and both
`selectedCameras` and `selectionOrder` become the singleton list. -/
def selectSingleCamera (cameraIdentifier : String) (s : CameraState) : CameraState :=
  { cameras := s.cameras.map (fun p => (p.1, p.1 == cameraIdentifier))
    selectedCameras := [cameraIdentifier]
    selectionOrder := [cameraIdentifier] }

/-- The store operations reachable from the UI. -/
inductive CameraOp where
  | toggle (id : String)
  | selectSingle (id : String)
deriving DecidableEq, Repr

def applyCameraOp (op : CameraOp) (s : CameraState) : CameraState :=
  match op with
  | .toggle id => toggleCamera id s
  | .selectSingle id => selectSingleCamera id s

def runCameraOps (ops : List CameraOp) (s : CameraState) : CameraState :=
  ops.foldl (fun s op => applyCameraOp op s) s

/-- The property asserted of the store: `selectedCameras` is (as a set) the
identifiers whose entry in `cameras` is `true`, and `selectionOrder` holds
exactly those identifiers, each once. -/
def CameraSelectionProp (s : CameraState) : Prop :=
  (∀ x ∈ s.selectedCameras, x ∈ trueKeys s.cameras) ∧
  (∀ x ∈ trueKeys s.cameras, x ∈ s.selectedCameras) ∧
  s.selectionOrder.Nodup ∧
  (∀ x ∈ s.selectionOrder, x ∈ trueKeys s.cameras) ∧
  (∀ x ∈ trueKeys s.cameras, x ∈ s.selectionOrder)

/-- Strengthened store invariant: the camera object has no duplicate keys
(JavaScript objects cannot), `selectedCameras` is literally the recomputed
list of true keys, and `selectionOrder` enumerates them each once. -/
def CameraInv (s : CameraState) : Prop :=
  (keysOf s.cameras).Nodup ∧
  s.selectedCameras = trueKeys s.cameras ∧
  s.selectionOrder.Nodup ∧
  (∀ x ∈ s.selectionOrder, x ∈ trueKeys s.cameras) ∧
  (∀ x ∈ trueKeys s.cameras, x ∈ s.selectionOrder)

instance (s : CameraState) : Decidable (CameraInv s) := by
  unfold CameraInv; infer_instance

instance (s : CameraState) : Decidable (CameraSelectionProp s) := by
  unfold CameraSelectionProp; infer_instance

/-- A run is good when every `selectSingleCamera` is applied to an identifier
that is a key of the camera object at that moment. -/
def goodCameraOps (s : CameraState) : List CameraOp → Bool
  | [] => true
  | op :: rest =>
    (match op with
     | .selectSingle id => hasKey id s.cameras
     | .toggle _ => true) &&
    goodCameraOps (applyCameraOp op s) rest

/-! ### Auth request interceptor (`useAuthAxiosInterceptor`) -/

/-- The `/auth/enabled` response body. -/
structure AuthEnabledResponse where
  enabled : Bool
  onboarding_complete : Bool
deriving DecidableEq, Repr

/-- The part of an axios request config the interceptor can observe or
change: the URL (possibly absent), the headers object and an opaque rest
standing for every other field. -/
structure RequestConfig where
  url : Option String
  headers : List (String × String)
  rest : String
deriving DecidableEq, Repr

/-- `config.url?.includes(sub)`: `false` when the URL is absent. -/
def urlIncludes (config : RequestConfig) (sub : String) : Bool :=
  match config.url with
  | none => false
  | some u => strIncludes u sub

/-- An interceptor either forwards a (possibly modified) config or throws. -/
inductive InterceptResult where
  | ok (config : RequestConfig)
  | error (msg : String)
deriving DecidableEq, Repr

/-- The request interceptor installed by `useAuthAxiosInterceptor`.
`auth` is the `/auth/enabled` query result (`none` while not loaded),
`cookies` the jar returned by `Cookies.get()`, and `getToken` the token
refresher from `lib/tokens` (`none` for `null`/`undefined`). -/
def interceptRequest (auth : Option AuthEnabledResponse)
    (cookies : List (String × String))
    (getToken : RequestConfig → Option String)
    (config : RequestConfig) : InterceptResult :=
  match auth with
  | none =>
    if urlIncludes config "/auth/enabled" then .ok config
    else .error "Request blocked, auth not loaded yet."
  | some a =>
    if !a.enabled then .ok config
    else if urlIncludes config "/auth/enabled" || urlIncludes config "/auth/login" ||
        urlIncludes config "/onboarding" then .ok config
    else if jsTruthy (lookupKey "user" cookies) && urlIncludes config "/auth/token" then
      .ok config
    else if !jsTruthy (lookupKey "user" cookies) then .error "Invalid session."
    else
      match getToken config with
      | some token =>
        if token != "" then
          .ok { config with
                headers := setKey "Authorization" ("Bearer " ++ token) config.headers }
        else .ok config
      | none => .ok config

/-! ### Color-mode provider (`ColorModeProvider`) -/

inductive ColorMode where
  | light
  | dark
deriving DecidableEq, Repr

def colorModeString : ColorMode → String
  | .light => "light"
  | .dark => "dark"

/-- The provider state: the current mode and the `localStorage` contents. -/
structure ColorState where
  mode : ColorMode
  storage : List (String × String)
deriving DecidableEq, Repr

/-- `toggleColorMode`: flip the mode and persist the new mode under the
`localStorage` key `"chosenMode"`. -/
def toggleColorMode (s : ColorState) : ColorState :=
  let nextMode := if s.mode = ColorMode.light then ColorMode.dark else ColorMode.light
  { mode := nextMode
    storage := setKey "chosenMode" (colorModeString nextMode) s.storage }

/-- The OS-preferred mode from `useMediaQuery("(prefers-color-scheme: dark)")`. -/
def preferredMode (prefersDark : Bool) : ColorMode :=
  if prefersDark then ColorMode.dark else ColorMode.light

/-- The mode derived on load from `localStorage.getItem("chosenMode")`
(the `switch` in the provider's effect). -/
def loadColorMode (stored : Option String) (prefersDark : Bool) : ColorMode :=
  match stored with
  | some s =>
    if s = "dark" then ColorMode.dark
    else if s = "light" then ColorMode.light
    else preferredMode prefersDark
  | none => preferredMode prefersDark

/-! ### Onboarding mutation (`useOnboarding`) -/

structure OnboardingVariables where
  name : String
  username : String
  password : String
deriving DecidableEq, Repr

/-- The tokens payload of a successful onboarding response, treated
opaquely (it is only handed on to `storeTokens`). -/
structure OnboardingResponse where
  payload : String
deriving DecidableEq, Repr

/-- `error.response.data` of an axios error. -/
structure APIErrorData where
  error : Option String
deriving DecidableEq, Repr

structure APIErrorHttpResponse where
  data : APIErrorData
deriving DecidableEq, Repr

/-- An axios error: a message, and the HTTP response when one was
received. -/
structure APIErrorResponse where
  message : String
  response : Option APIErrorHttpResponse
deriving DecidableEq, Repr

/-- A POST request as built by the `onboarding` mutation function. -/
structure PostRequest where
  url : String
  body : List (String × String)
deriving DecidableEq, Repr

/-- The request posted by `onboarding({name, username, password})`. -/
def onboardingRequest (clientId : String) (v : OnboardingVariables) : PostRequest :=
  { url := "/onboarding"
    body := [("client_id", clientId), ("name", v.name),
             ("username", v.username), ("password", v.password)] }

/-- Observable effects of the mutation callbacks. -/
inductive OnboardingEffect where
  | storeTokens (data : OnboardingResponse)
  | toastSuccess (msg : String)
  | toastError (msg : String)
deriving DecidableEq, Repr

/-- The `onSuccess` callback. -/
def onboardingOnSuccess (data : OnboardingResponse) : List OnboardingEffect :=
  [.storeTokens data, .toastSuccess "User created successfully"]

/-- The message of the error toast:
`error.response && error.response.data.error ? ... : ...`, with JavaScript
truthiness on the (string) `error` field. -/
def onboardingErrorMessage (e : APIErrorResponse) : String :=
  match e.response with
  | some r =>
    match r.data.error with
    | some err =>
      if err != "" then "Error creating user: " ++ err
      else "An error occurred: " ++ e.message
    | none => "An error occurred: " ++ e.message
  | none => "An error occurred: " ++ e.message

/-- The `onError` callback. -/
def onboardingOnError (e : APIErrorResponse) : List OnboardingEffect :=
  [.toastError (onboardingErrorMessage e)]

/-! ### video.js options (`getRecordingVideoJSOptions`) -/

structure Recording where
  hls_url : String
  thumbnail_path : String
deriving DecidableEq, Repr

structure VideoSource where
  src : String
  type : String
deriving DecidableEq, Repr

structure VideoJSOptions where
  autoplay : Bool
  playsinline : Bool
  controls : Bool
  loop : Bool
  poster : String
  preload : String
  responsive : Bool
  fluid : Bool
  playbackRates : List ℚ
  liveui : Bool
  trackingThreshold : ℕ
  experimentalLLHLS : Bool
  sources : List VideoSource
deriving DecidableEq, Repr

/-- `getRecordingVideoJSOptions(recording, auth_token?)`; the token is
appended only when truthy (present and non-empty). -/
def getRecordingVideoJSOptions (recording : Recording)
    (auth_token : Option String) : VideoJSOptions :=
  { autoplay := false
    playsinline := true
    controls := true
    loop := true
    poster := recording.thumbnail_path
    preload := "none"
    responsive := true
    fluid := true
    playbackRates := [1/2, 1, 2, 5, 10]
    liveui := true
    trackingThreshold := 0
    experimentalLLHLS := true
    sources := [{ src := recording.hls_url ++
                    (if jsTruthy auth_token then "?token=" ++ auth_token.getD "" else "")
                  type := "application/x-mpegURL" }] }

/-! ### URL helpers (`removeURLParameter`)

Modelled over `List Char` so that splitting and joining can be reasoned
about character by character. -/

/-- A JavaScript string, character by character. -/
abbrev Str := List Char

/-- `s.split(sep)` for a one-character separator. -/
def splitOnChar (sep : Char) : Str → List Str
  | [] => [[]]
  | c :: rest =>
    if c = sep then [] :: splitOnChar sep rest
    else List.modifyHead (fun t => c :: t) (splitOnChar sep rest)

/-- `parts.join(sep)` for a one-character separator. -/
def joinChar (sep : Char) : List Str → Str
  | [] => []
  | [x] => x
  | x :: xs => x ++ sep :: joinChar sep xs

/-- `removeURLParameter(url, parameter)` from `lib/helpers`:
split off the query string at `"?"`, drop every `"&"`-separated entry that
starts with `parameter + "="`, and reassemble. -/
def removeURLParameter (url parameter : Str) : Str :=
  match splitOnChar '?' url with
  | [] => url
  | [_] => url
  | base :: queryString :: _ =>
    if queryString = [] then url
    else
      let params := (splitOnChar '&' queryString).filter
        (fun p => !((parameter ++ ['=']).isPrefixOf p))
      if params = [] then base else base ++ '?' :: joinChar '&' params

/-- The text after the first `"?"` of a URL, when there is one. -/
def afterFirstQuestion (url : Str) : Option Str :=
  match splitOnChar '?' url with
  | _ :: q :: rest => some (joinChar '?' (q :: rest))
  | _ => none

/-- The query parameters of a URL: the `"&"`-separated components of the
text after the first `"?"`. -/
def queryParams (url : Str) : List Str :=
  match afterFirstQuestion url with
  | none => []
  | some q => splitOnChar '&' q

/-! ## Lemmas about the association-list primitives -/

theorem lookupKey_nil (x : String) : lookupKey x ([] : List (String × α)) = none := rfl

theorem lookupKey_cons (x k : String) (v : α) (m : List (String × α)) :
    lookupKey x ((k, v) :: m) = if k = x then some v else lookupKey x m := rfl

theorem lookupKey_append (x : String) (m₁ m₂ : List (String × α)) :
    lookupKey x (m₁ ++ m₂) = (lookupKey x m₁).or (lookupKey x m₂) := by
  induction m₁ with
  | nil => simp [lookupKey]
  | cons p rest ih =>
    obtain ⟨k, v⟩ := p
    by_cases h : k = x <;> simp [lookupKey, h, ih]

theorem lookupKey_mapSet (x k : String) (v : α) (m : List (String × α)) :
    lookupKey x (m.map (fun p => if p.1 = k then (k, v) else p)) =
      if x = k then (lookupKey k m).map (fun _ => v) else lookupKey x m := by
  induction m with
  | nil => simp [lookupKey]
  | cons p rest ih =>
    obtain ⟨k', w⟩ := p
    rw [List.map_cons]
    by_cases h1 : k' = k
    · subst h1
      rw [if_pos rfl, lookupKey_cons]
      by_cases h2 : x = k'
      · subst h2
        simp [lookupKey_cons]
      · simp [lookupKey_cons, ih, h2, Ne.symm h2]
    · rw [if_neg h1, lookupKey_cons, ih]
      by_cases h2 : x = k
      · subst h2
        simp [h1, lookupKey_cons]
      · simp [h2, lookupKey_cons]

theorem lookupKey_setKey (x k : String) (v : α) (m : List (String × α)) :
    lookupKey x (setKey k v m) = if x = k then some v else lookupKey x m := by
  unfold setKey hasKey
  by_cases h : (lookupKey k m).isSome
  · obtain ⟨w, hw⟩ := Option.isSome_iff_exists.1 h
    simp [h, lookupKey_mapSet, hw]
  · have hn : lookupKey k m = none := Option.not_isSome_iff_eq_none.1 h
    by_cases hx : x = k
    · subst hx
      simp [h, lookupKey_append, hn, lookupKey]
    · simp [h, lookupKey_append, hx, lookupKey, Ne.symm hx]

theorem keysOf_nil : keysOf ([] : List (String × α)) = [] := rfl

theorem keysOf_cons (k : String) (v : α) (m : List (String × α)) :
    keysOf ((k, v) :: m) = k :: keysOf m := rfl

theorem keysOf_append (m₁ m₂ : List (String × α)) :
    keysOf (m₁ ++ m₂) = keysOf m₁ ++ keysOf m₂ := by
  simp [keysOf]

theorem hasKey_iff_mem (k : String) (m : List (String × α)) :
    hasKey k m = true ↔ k ∈ keysOf m := by
  induction m with
  | nil => simp [hasKey, lookupKey, keysOf]
  | cons p rest ih =>
    obtain ⟨k', v⟩ := p
    rw [keysOf_cons]
    unfold hasKey
    rw [lookupKey_cons]
    by_cases h : k' = k
    · subst h
      simp
    · rw [if_neg h, List.mem_cons]
      unfold hasKey at ih
      simp [ih, Ne.symm h]

theorem keysOf_mapSet (k : String) (v : α) (m : List (String × α)) :
    keysOf (m.map (fun p => if p.1 = k then (k, v) else p)) = keysOf m := by
  unfold keysOf
  rw [List.map_map]
  apply List.map_congr_left
  intro p _
  by_cases h : p.1 = k <;> simp [h, Function.comp]

theorem keysOf_setKey (k : String) (v : α) (m : List (String × α)) :
    keysOf (setKey k v m) = if hasKey k m then keysOf m else keysOf m ++ [k] := by
  unfold setKey
  by_cases h : hasKey k m
  · rw [if_pos h, if_pos h, keysOf_mapSet]
  · rw [if_neg h, if_neg h, keysOf_append]
    rfl

theorem nodup_keysOf_setKey {m : List (String × α)} (h : (keysOf m).Nodup)
    (k : String) (v : α) : (keysOf (setKey k v m)).Nodup := by
  rw [keysOf_setKey]
  by_cases hk : hasKey k m
  · simpa [hk] using h
  · have : k ∉ keysOf m := fun hm => hk ((hasKey_iff_mem k m).2 hm)
    simp [hk, List.nodup_append, h, List.disjoint_singleton, this]

theorem mem_trueKeys (x : String) (m : List (String × Bool)) :
    x ∈ trueKeys m ↔ (x, true) ∈ m := by
  unfold trueKeys
  simp only [List.mem_map, List.mem_filter]
  constructor
  · rintro ⟨⟨a, b⟩, ⟨hm, hb⟩, rfl⟩
    simpa [show b = true from hb] using hm
  · intro h
    exact ⟨(x, true), ⟨h, rfl⟩, rfl⟩

theorem mem_pair_iff_lookupKey {m : List (String × α)} (hnd : (keysOf m).Nodup)
    (x : String) (w : α) : (x, w) ∈ m ↔ lookupKey x m = some w := by
  induction m with
  | nil => simp [lookupKey]
  | cons p rest ih =>
    obtain ⟨k', v⟩ := p
    rw [keysOf_cons, List.nodup_cons] at hnd
    have ih' := ih hnd.2
    rw [lookupKey_cons, List.mem_cons]
    by_cases h : k' = x
    · subst h
      rw [if_pos rfl]
      have hnr : (k', w) ∉ rest := fun hm => hnd.1 (List.mem_map_of_mem _ hm)
      constructor
      · rintro (heq | hm)
        · injection heq with h1 h2
          rw [h2]
        · exact absurd hm hnr
      · intro hs
        exact Or.inl (by rw [Option.some_inj.1 hs])
    · rw [if_neg h]
      constructor
      · rintro (heq | hm)
        · injection heq with h1 h2
          exact absurd h1.symm h
        · exact ih'.1 hm
      · intro hs
        exact Or.inr (ih'.2 hs)

theorem mem_trueKeys_iff_lookup {m : List (String × Bool)} (hnd : (keysOf m).Nodup)
    (x : String) : x ∈ trueKeys m ↔ lookupKey x m = some true :=
  (mem_trueKeys x m).trans (mem_pair_iff_lookupKey hnd x true)

theorem setKey_lookup_self {m : List (String × α)} (hnd : (keysOf m).Nodup)
    {k : String} {v : α} (h : lookupKey k m = some v) : setKey k v m = m := by
  have hk : hasKey k m = true := by unfold hasKey; simp [h]
  unfold setKey
  rw [if_pos hk]
  have hcongr : ∀ p ∈ m, (if p.1 = k then (k, v) else p) = p := by
    rintro ⟨a, b⟩ hm
    by_cases ha : a = k
    · subst ha
      have hb : lookupKey a m = some b := (mem_pair_iff_lookupKey hnd a b).1 hm
      rw [h] at hb
      simp [Option.some_inj.1 hb]
    · simp [ha]
  rw [List.map_congr_left hcongr]
  simp

theorem setKey_setKey (k : String) (v₁ v₂ : α) (m : List (String × α)) :
    setKey k v₂ (setKey k v₁ m) = setKey k v₂ m := by
  have hk1 : hasKey k (setKey k v₁ m) = true := by
    unfold hasKey
    simp [lookupKey_setKey]
  by_cases h : hasKey k m
  · rw [setKey, if_pos hk1, setKey, if_pos h, setKey, if_pos h, List.map_map]
    apply List.map_congr_left
    rintro ⟨a, b⟩ _
    by_cases ha : a = k <;> simp [ha, Function.comp]
  · have hmem : k ∉ keysOf m := fun hm => h ((hasKey_iff_mem k m).2 hm)
    rw [setKey, if_pos hk1, setKey, if_neg h, setKey, if_neg h, List.map_append]
    have hid : m.map (fun p => if p.1 = k then (k, v₂) else p) = m := by
      have : ∀ p ∈ m, (if p.1 = k then (k, v₂) else p) = p := by
        rintro ⟨a, b⟩ hm
        have : a ≠ k := fun hak => hmem (hak ▸ List.mem_map_of_mem _ hm)
        simp [this]
      rw [List.map_congr_left this]
      simp
    simp [hid]

/-! ## Camera-store lemmas -/

theorem toggleCamera_cameras (id : String) (s : CameraState) :
    (toggleCamera id s).cameras =
      setKey id (!((lookupKey id s.cameras).getD false)) s.cameras := rfl

theorem toggleCamera_selectedCameras (id : String) (s : CameraState) :
    (toggleCamera id s).selectedCameras =
      trueKeys (setKey id (!((lookupKey id s.cameras).getD false)) s.cameras) := rfl

theorem toggleCamera_selectionOrder (id : String) (s : CameraState) :
    (toggleCamera id s).selectionOrder =
      if !((lookupKey id s.cameras).getD false) then s.selectionOrder ++ [id]
      else s.selectionOrder.filter (fun x => x != id) := rfl

theorem selectSingleCamera_cameras (id : String) (s : CameraState) :
    (selectSingleCamera id s).cameras =
      s.cameras.map (fun p => (p.1, p.1 == id)) := rfl

theorem mem_trueKeys_setKey {m : List (String × Bool)} (hnd : (keysOf m).Nodup)
    (x id : String) (b : Bool) :
    x ∈ trueKeys (setKey id b m) ↔
      (if x = id then b = true else lookupKey x m = some true) := by
  rw [mem_trueKeys_iff_lookup (nodup_keysOf_setKey hnd id b), lookupKey_setKey]
  by_cases h : x = id
  · simp [h]
  · simp [h]

theorem cameraInv_initial : CameraInv initialCameraState := by
  refine ⟨List.nodup_nil, rfl, List.nodup_nil, ?_, ?_⟩ <;> intro x hx <;>
    simp [initialCameraState, trueKeys] at hx

theorem cameraInv_toggle {s : CameraState} (h : CameraInv s) (id : String) :
    CameraInv (toggleCamera id s) := by
  obtain ⟨hnd, hsel, hdup, hsub, hsup⟩ := h
  refine ⟨?_, ?_, ?_, ?_, ?_⟩
  · rw [toggleCamera_cameras]
    exact nodup_keysOf_setKey hnd _ _
  · rw [toggleCamera_selectedCameras, toggleCamera_cameras]
  · rw [toggleCamera_selectionOrder]
    cases hv : (lookupKey id s.cameras).getD false with
    | true =>
      simp only [Bool.not_true, Bool.false_eq_true, if_false]
      exact hdup.filter _
    | false =>
      have hnt : id ∉ s.selectionOrder := by
        intro hm
        have := (mem_trueKeys_iff_lookup hnd id).1 (hsub id hm)
        rw [this] at hv
        simp at hv
      simp only [Bool.not_false, if_true]
      rw [List.nodup_append]
      exact ⟨hdup, List.nodup_singleton id, by rw [List.disjoint_singleton]; exact hnt⟩
  · intro x hx
    rw [toggleCamera_selectionOrder] at hx
    rw [toggleCamera_cameras, mem_trueKeys_setKey hnd]
    cases hv : (lookupKey id s.cameras).getD false with
    | true =>
      rw [hv] at hx
      simp only [Bool.not_true, Bool.false_eq_true, if_false] at hx
      rw [List.mem_filter] at hx
      have hxid : x ≠ id := by simpa using hx.2
      rw [if_neg hxid]
      exact (mem_trueKeys_iff_lookup hnd x).1 (hsub x hx.1)
    | false =>
      rw [hv] at hx
      simp only [Bool.not_false, if_true] at hx
      rw [List.mem_append, List.mem_singleton] at hx
      by_cases hxid : x = id
      · rw [if_pos hxid]
        rfl
      · rw [if_neg hxid]
        rcases hx with hx | hx
        · exact (mem_trueKeys_iff_lookup hnd x).1 (hsub x hx)
        · exact absurd hx hxid
  · intro x hx
    rw [toggleCamera_cameras, mem_trueKeys_setKey hnd] at hx
    rw [toggleCamera_selectionOrder]
    cases hv : (lookupKey id s.cameras).getD false with
    | true =>
      rw [hv] at hx
      simp only [Bool.not_true, Bool.false_eq_true, if_false]
      by_cases hxid : x = id
      · rw [if_pos hxid] at hx
        simp at hx
      · rw [if_neg hxid] at hx
        rw [List.mem_filter]
        exact ⟨hsup x ((mem_trueKeys_iff_lookup hnd x).2 hx), by simpa using hxid⟩
    | false =>
      rw [hv] at hx
      simp only [Bool.not_false, if_true]
      rw [List.mem_append, List.mem_singleton]
      by_cases hxid : x = id
      · exact Or.inr hxid
      · rw [if_neg hxid] at hx
        exact Or.inl (hsup x ((mem_trueKeys_iff_lookup hnd x).2 hx))

theorem keysOf_selectMap (id : String) (m : List (String × Bool)) :
    keysOf (m.map (fun p => (p.1, p.1 == id))) = keysOf m := by
  unfold keysOf
  rw [List.map_map]
  rfl

theorem trueKeys_selectMap_nil {m : List (String × Bool)} {id : String}
    (h : id ∉ keysOf m) : trueKeys (m.map (fun p => (p.1, p.1 == id))) = [] := by
  have hf : List.filter (fun p => p.2) (m.map fun p => (p.1, p.1 == id)) = [] := by
    rw [List.filter_eq_nil_iff]
    intro p hp
    rw [List.mem_map] at hp
    obtain ⟨q, hq, rfl⟩ := hp
    have hne : q.1 ≠ id := fun he => h (he ▸ List.mem_map_of_mem _ hq)
    simp [hne]
  unfold trueKeys
  rw [hf]
  rfl

theorem trueKeys_selectMap {m : List (String × Bool)} (hnd : (keysOf m).Nodup)
    {id : String} (hk : hasKey id m = true) :
    trueKeys (m.map (fun p => (p.1, p.1 == id))) = [id] := by
  induction m with
  | nil => simp [hasKey, lookupKey] at hk
  | cons p rest ih =>
    obtain ⟨a, b⟩ := p
    rw [keysOf_cons, List.nodup_cons] at hnd
    rw [List.map_cons]
    by_cases ha : a = id
    · subst ha
      have h0 := @trueKeys_selectMap_nil rest a hnd.1
      unfold trueKeys at h0 ⊢
      rw [List.filter_cons, if_pos (by simp), List.map_cons, h0]
    · have hk' : hasKey id rest = true := by
        unfold hasKey at hk ⊢
        rw [lookupKey_cons, if_neg ha] at hk
        exact hk
      have hrest := ih hnd.2 hk'
      unfold trueKeys at hrest ⊢
      rw [List.filter_cons, if_neg (by simp [ha])]
      exact hrest

theorem cameraInv_selectSingle {s : CameraState} (h : CameraInv s) {id : String}
    (hk : hasKey id s.cameras = true) : CameraInv (selectSingleCamera id s) := by
  obtain ⟨hnd, -, -, -, -⟩ := h
  have htk := trueKeys_selectMap hnd hk
  refine ⟨?_, ?_, List.nodup_singleton id, ?_, ?_⟩
  · rw [selectSingleCamera_cameras, keysOf_selectMap]
    exact hnd
  · show [id] = trueKeys (s.cameras.map (fun p => (p.1, p.1 == id)))
    rw [htk]
  · intro x hx
    show x ∈ trueKeys (s.cameras.map (fun p => (p.1, p.1 == id)))
    rw [htk]
    exact hx
  · intro x hx
    rw [show (selectSingleCamera id s).cameras =
      s.cameras.map (fun p => (p.1, p.1 == id)) from rfl, htk] at hx
    exact hx

theorem runCameraOps_cons (op : CameraOp) (ops : List CameraOp) (s : CameraState) :
    runCameraOps (op :: ops) s = runCameraOps ops (applyCameraOp op s) := rfl

theorem cameraInv_runOps (ops : List CameraOp) :
    ∀ s : CameraState, CameraInv s → goodCameraOps s ops = true →
      CameraInv (runCameraOps ops s) := by
  induction ops with
  | nil =>
    intro s h _
    exact h
  | cons op rest ih =>
    intro s h hg
    rw [runCameraOps_cons]
    unfold goodCameraOps at hg
    rw [Bool.and_eq_true] at hg
    cases op with
    | toggle id => exact ih _ (cameraInv_toggle h id) hg.2
    | selectSingle id => exact ih _ (cameraInv_selectSingle h hg.1) hg.2

/-! ## Camera-store claim theorems -/

/-- Claim C1 (amended): Starting from the initial state, after every sequence
of `toggleCamera` and `selectSingleCamera` operations in which each
`selectSingleCamera` is applied to an identifier that is then a key of the
cameras map, `selectedCameras` is exactly the set of identifiers whose entry
in the cameras map is `true`, and `selectionOrder` contains exactly the same
identifiers, each once. -/
theorem camera_store_invariant (ops : List CameraOp)
    (h : goodCameraOps initialCameraState ops = true) :
    CameraSelectionProp (runCameraOps ops initialCameraState) := by
  obtain ⟨-, hsel, hdup, hsub, hsup⟩ :=
    cameraInv_runOps ops initialCameraState cameraInv_initial h
  refine ⟨?_, ?_, hdup, hsub, hsup⟩
  · intro x hx
    rw [hsel] at hx
    exact hx
  · intro x hx
    rw [hsel]
    exact hx

/-- Closed instance of `camera_store_invariant` on a concrete operation
sequence. -/
theorem camera_store_invariant_witness :
    CameraSelectionProp (runCameraOps
      [CameraOp.toggle "front", CameraOp.selectSingle "front", CameraOp.toggle "back"]
      initialCameraState) :=
  camera_store_invariant _ (by decide)

/-- Claim C1 (counterexample): The claim as stated fails: from the initial
state, `selectSingleCamera "front"` produces `selectedCameras = ["front"]`
although the cameras map is still empty, so no entry at all is `true`. -/
theorem camera_store_invariant_counterexample :
    ¬ CameraSelectionProp (runCameraOps [CameraOp.selectSingle "front"]
      initialCameraState) := by
  intro h
  have := h.1 "front" (by decide)
  simp [runCameraOps, applyCameraOp, selectSingleCamera, initialCameraState,
    trueKeys] at this

/-- Claim C9 (amended): For a store state satisfying the reachable-state
invariant and an identifier that is a key of the cameras map, toggling the
camera twice restores `cameras` and `selectedCameras` exactly, and changes
`selectionOrder` at most by moving the identifier to the end. -/
theorem toggle_toggle_restores (s : CameraState) (id : String)
    (h : CameraInv s) (hk : hasKey id s.cameras = true) :
    (toggleCamera id (toggleCamera id s)).cameras = s.cameras ∧
    (toggleCamera id (toggleCamera id s)).selectedCameras = s.selectedCameras ∧
    (toggleCamera id (toggleCamera id s)).selectionOrder =
      s.selectionOrder.filter (fun x => x != id) ++
        (if id ∈ s.selectionOrder then [id] else []) := by
  obtain ⟨hnd, hsel, hdup, hsub, hsup⟩ := h
  unfold hasKey at hk
  obtain ⟨v, hv⟩ := Option.isSome_iff_exists.1 hk
  have hgetD : (lookupKey id s.cameras).getD false = v := by rw [hv]; rfl
  have h1c : (toggleCamera id s).cameras = setKey id (!v) s.cameras := by
    rw [toggleCamera_cameras, hgetD]
  have h1lk : lookupKey id (toggleCamera id s).cameras = some (!v) := by
    rw [h1c, lookupKey_setKey, if_pos rfl]
  have h1getD : (lookupKey id (toggleCamera id s).cameras).getD false = !v := by
    rw [h1lk]; rfl
  have h2c : (toggleCamera id (toggleCamera id s)).cameras = s.cameras := by
    rw [toggleCamera_cameras, h1getD, Bool.not_not, h1c, setKey_setKey]
    exact setKey_lookup_self hnd hv
  refine ⟨h2c, ?_, ?_⟩
  · rw [toggleCamera_selectedCameras, h1getD, Bool.not_not, h1c, setKey_setKey,
      setKey_lookup_self hnd hv, hsel]
  · rw [toggleCamera_selectionOrder, h1getD, Bool.not_not,
      toggleCamera_selectionOrder, hgetD]
    cases v with
    | true =>
      have hidmem : id ∈ s.selectionOrder :=
        hsup id ((mem_trueKeys_iff_lookup hnd id).2 hv)
      rw [if_pos hidmem]
      simp
    | false =>
      have hidnot : id ∉ s.selectionOrder := by
        intro hm
        have hx := (mem_trueKeys_iff_lookup hnd id).1 (hsub id hm)
        rw [hv] at hx
        simp at hx
      rw [if_neg hidnot]
      simp [List.filter_append]

/-- Closed instance of `toggle_toggle_restores` on a concrete state. -/
theorem toggle_toggle_restores_witness :
    (toggleCamera "a" (toggleCamera "a"
      ⟨[("a", true), ("b", false)], ["a"], ["a"]⟩)).cameras =
        [("a", true), ("b", false)] ∧
    (toggleCamera "a" (toggleCamera "a"
      ⟨[("a", true), ("b", false)], ["a"], ["a"]⟩)).selectedCameras = ["a"] ∧
    (toggleCamera "a" (toggleCamera "a"
      ⟨[("a", true), ("b", false)], ["a"], ["a"]⟩)).selectionOrder =
      (["a"] : List String).filter (fun x => x != "a") ++
        (if "a" ∈ (["a"] : List String) then ["a"] else []) :=
  toggle_toggle_restores ⟨[("a", true), ("b", false)], ["a"], ["a"]⟩ "a"
    (by decide) (by decide)

/-- Claim C9 (counterexample): The claim as stated fails for arbitrary states:
toggling an identifier that is not a key of the cameras map twice adds the
key with value `false`, so the cameras map is not restored even as a map. -/
theorem toggle_toggle_counterexample :
    lookupKey "x" (toggleCamera "x" (toggleCamera "x" initialCameraState)).cameras =
      some false ∧
    lookupKey "x" initialCameraState.cameras = none := by
  decide

/-! ## Interceptor lemmas and claim theorems -/

/-- Shape of the interceptor once auth is loaded and enabled and the URL
bypasses none of `/auth/enabled`, `/auth/login`, `/onboarding`. -/
theorem interceptRequest_authed (a : AuthEnabledResponse)
    (cookies : List (String × String)) (getToken : RequestConfig → Option String)
    (config : RequestConfig)
    (hen : a.enabled = true)
    (h1 : urlIncludes config "/auth/enabled" = false)
    (h2 : urlIncludes config "/auth/login" = false)
    (h3 : urlIncludes config "/onboarding" = false) :
    interceptRequest (some a) cookies getToken config =
      (if jsTruthy (lookupKey "user" cookies) then
        (if urlIncludes config "/auth/token" then InterceptResult.ok config
         else
           match getToken config with
           | some token =>
             if token != "" then
               InterceptResult.ok { config with
                 headers := setKey "Authorization" ("Bearer " ++ token) config.headers }
             else InterceptResult.ok config
           | none => InterceptResult.ok config)
       else InterceptResult.error "Invalid session.") := by
  simp only [interceptRequest, hen, h1, h2, h3, Bool.not_true, Bool.or_self,
    Bool.or_false, Bool.false_or, if_false, Bool.false_eq_true]
  cases hu : jsTruthy (lookupKey "user" cookies) with
  | false => simp
  | true => simp

/-- Claim C2: While the `/auth/enabled` response has not loaded, a request
whose URL includes `"/auth/enabled"` is returned unchanged and every other
request is rejected with an error; once auth is loaded with
`enabled = false`, every request is returned unchanged. -/
theorem interceptor_auth_gating (cookies : List (String × String))
    (getToken : RequestConfig → Option String) (config : RequestConfig)
    (oc : Bool) :
    interceptRequest none cookies getToken config =
      (if urlIncludes config "/auth/enabled" then InterceptResult.ok config
       else InterceptResult.error "Request blocked, auth not loaded yet.") ∧
    interceptRequest (some ⟨false, oc⟩) cookies getToken config =
      InterceptResult.ok config := by
  exact ⟨rfl, rfl⟩

/-- Claim C3 (amended): When auth is enabled and the URL includes none of the
bypass fragments, the interceptor rejects with `"Invalid session."` exactly
when the `"user"` cookie is absent or empty (falsy); with a non-empty
`"user"` cookie the request proceeds. -/
theorem interceptor_session_expiry (a : AuthEnabledResponse)
    (cookies : List (String × String)) (getToken : RequestConfig → Option String)
    (config : RequestConfig)
    (hen : a.enabled = true)
    (h1 : urlIncludes config "/auth/enabled" = false)
    (h2 : urlIncludes config "/auth/login" = false)
    (h3 : urlIncludes config "/onboarding" = false) :
    (interceptRequest (some a) cookies getToken config =
        InterceptResult.error "Invalid session." ↔
      jsTruthy (lookupKey "user" cookies) = false) ∧
    (jsTruthy (lookupKey "user" cookies) = true →
      ∃ c, interceptRequest (some a) cookies getToken config =
        InterceptResult.ok c) := by
  rw [interceptRequest_authed a cookies getToken config hen h1 h2 h3]
  cases hu : jsTruthy (lookupKey "user" cookies) with
  | false => simp
  | true =>
    simp only [if_true]
    have hok : ∃ c,
        (if urlIncludes config "/auth/token" then InterceptResult.ok config
         else
           match getToken config with
           | some token =>
             if token != "" then
               InterceptResult.ok { config with
                 headers := setKey "Authorization" ("Bearer " ++ token) config.headers }
             else InterceptResult.ok config
           | none => InterceptResult.ok config) = InterceptResult.ok c := by
      by_cases ht : urlIncludes config "/auth/token" = true
      · exact ⟨config, by rw [ht]; simp⟩
      · rw [Bool.not_eq_true] at ht
        rw [ht]
        simp only [Bool.false_eq_true, if_false]
        cases hg : getToken config with
        | none => exact ⟨config, rfl⟩
        | some t =>
          by_cases htt : (t != "") = true
          · exact ⟨{ config with
                headers := setKey "Authorization" ("Bearer " ++ t) config.headers },
              by simp [htt]⟩
          · rw [Bool.not_eq_true] at htt
            exact ⟨config, by simp [htt]⟩
    obtain ⟨c, hc⟩ := hok
    rw [hc]
    constructor
    · constructor
      · intro he
        cases he
      · intro he
        cases he
    · intro _
      exact ⟨c, rfl⟩

/-- Closed instance of `interceptor_session_expiry`: with a non-empty
`"user"` cookie an API request proceeds, and rejection is equivalent to the
cookie being falsy. -/
theorem interceptor_session_expiry_witness :
    (interceptRequest (some ⟨true, true⟩) [("user", "u")] (fun _ => none)
        ⟨some "/api/v1/cameras", [], ""⟩ =
        InterceptResult.error "Invalid session." ↔
      jsTruthy (lookupKey "user" [("user", "u")]) = false) ∧
    (jsTruthy (lookupKey "user" [("user", "u")]) = true →
      ∃ c, interceptRequest (some ⟨true, true⟩) [("user", "u")] (fun _ => none)
        ⟨some "/api/v1/cameras", [], ""⟩ = InterceptResult.ok c) :=
  interceptor_session_expiry ⟨true, true⟩ [("user", "u")] (fun _ => none)
    ⟨some "/api/v1/cameras", [], ""⟩ rfl (by decide) (by decide) (by decide)

/-- Claim C3 (counterexample): A `"user"` cookie that exists but is empty is
falsy, so the request is rejected although a `"user"` cookie exists. -/
theorem interceptor_session_expiry_counterexample :
    interceptRequest (some ⟨true, true⟩) [("user", "")] (fun _ => none)
      ⟨some "/api/v1/cameras", [], ""⟩ =
      InterceptResult.error "Invalid session." ∧
    lookupKey "user" [("user", "")] = some "" := by
  decide

/-- Claim C4 (amended): When auth is enabled, a non-empty `"user"` cookie
exists and the URL includes none of the bypass fragments: a
`"/auth/token"` request is returned unchanged; otherwise, if `getToken`
returns a non-empty token the `Authorization` header is set to
`"Bearer " ++ token` with all other config fields unchanged, and if
`getToken` returns no token or an empty token the config is returned
entirely unchanged. -/
theorem interceptor_bearer_attachment (a : AuthEnabledResponse)
    (cookies : List (String × String)) (getToken : RequestConfig → Option String)
    (config : RequestConfig)
    (hen : a.enabled = true)
    (h1 : urlIncludes config "/auth/enabled" = false)
    (h2 : urlIncludes config "/auth/login" = false)
    (h3 : urlIncludes config "/onboarding" = false)
    (hu : jsTruthy (lookupKey "user" cookies) = true) :
    (urlIncludes config "/auth/token" = true →
      interceptRequest (some a) cookies getToken config =
        InterceptResult.ok config) ∧
    (urlIncludes config "/auth/token" = false →
      ∀ t, getToken config = some t → t ≠ "" →
        interceptRequest (some a) cookies getToken config =
          InterceptResult.ok { config with
            headers := setKey "Authorization" ("Bearer " ++ t) config.headers }) ∧
    (urlIncludes config "/auth/token" = false →
      getToken config = none ∨ getToken config = some "" →
      interceptRequest (some a) cookies getToken config =
        InterceptResult.ok config) := by
  rw [interceptRequest_authed a cookies getToken config hen h1 h2 h3, hu]
  simp only [if_true]
  refine ⟨?_, ?_, ?_⟩
  · intro ht
    rw [ht]
    simp
  · intro ht t hg hne
    rw [ht]
    simp only [Bool.false_eq_true, if_false]
    rw [hg]
    simp [hne]
  · intro ht hg
    rw [ht]
    simp only [Bool.false_eq_true, if_false]
    rcases hg with hg | hg
    · rw [hg]
    · rw [hg]
      simp

/-- Closed instance of `interceptor_bearer_attachment`: a non-`/auth/token`
request with a non-empty cookie and token gets the `Bearer` header. -/
theorem interceptor_bearer_attachment_witness :
    interceptRequest (some ⟨true, true⟩) [("user", "u")] (fun _ => some "tok")
      ⟨some "/api/v1/cameras", [], "r"⟩ =
      InterceptResult.ok ⟨some "/api/v1/cameras",
        setKey "Authorization" "Bearer tok" [], "r"⟩ :=
  (interceptor_bearer_attachment ⟨true, true⟩ [("user", "u")]
    (fun _ => some "tok") ⟨some "/api/v1/cameras", [], "r"⟩
    rfl (by decide) (by decide) (by decide) (by decide)).2.1
    (by decide) "tok" rfl (by decide)

/-- Claim C4 (counterexample): A `"/auth/token"` request with an existing but
empty `"user"` cookie is not returned unchanged: the falsy cookie makes the
interceptor reject with `"Invalid session."`. -/
theorem interceptor_bearer_attachment_counterexample :
    interceptRequest (some ⟨true, true⟩) [("user", "")] (fun _ => some "tok")
      ⟨some "/api/v1/auth/token", [], ""⟩ =
      InterceptResult.error "Invalid session." ∧
    lookupKey "user" [("user", "")] = some "" := by
  decide

/-! ## Color-mode theorems -/

/-- Claim C5: `toggleColorMode` maps `"light"` to `"dark"` and `"dark"` to
`"light"`, so a double application restores the mode; each application
stores the new mode under `localStorage` key `"chosenMode"`, so after a
double toggle the stored value equals the original mode. -/
theorem toggle_color_mode_involution (s : ColorState) :
    (toggleColorMode s).mode =
      (if s.mode = ColorMode.light then ColorMode.dark else ColorMode.light) ∧
    (toggleColorMode (toggleColorMode s)).mode = s.mode ∧
    lookupKey "chosenMode" (toggleColorMode s).storage =
      some (colorModeString (toggleColorMode s).mode) ∧
    lookupKey "chosenMode" (toggleColorMode (toggleColorMode s)).storage =
      some (colorModeString s.mode) := by
  obtain ⟨m, st⟩ := s
  cases m <;> simp [toggleColorMode, colorModeString, lookupKey_setKey]

/-- Claim C6: On load, a stored `"dark"` gives dark mode and a stored
`"light"` gives light mode regardless of the OS preference; any other
stored value (including absent) gives the OS-preferred mode, which is dark
exactly when `prefers-color-scheme: dark` matches. -/
theorem load_color_mode_derivation (b : Bool) :
    loadColorMode (some "dark") b = ColorMode.dark ∧
    loadColorMode (some "light") b = ColorMode.light ∧
    (∀ s : Option String, s ≠ some "dark" → s ≠ some "light" →
      loadColorMode s b = preferredMode b) ∧
    preferredMode true = ColorMode.dark ∧
    preferredMode false = ColorMode.light := by
  refine ⟨rfl, rfl, ?_, rfl, rfl⟩
  intro s h1 h2
  match s with
  | none => rfl
  | some v =>
    have hv1 : v ≠ "dark" := fun h => h1 (by rw [h])
    have hv2 : v ≠ "light" := fun h => h2 (by rw [h])
    simp [loadColorMode, hv1, hv2]

/-- Closed instance of `load_color_mode_derivation`: with `"auto"` stored
the OS-preferred mode wins, and the literal cases behave as claimed. -/
theorem load_color_mode_derivation_witness :
    loadColorMode (some "dark") false = ColorMode.dark ∧
    loadColorMode (some "auto") true = preferredMode true :=
  ⟨(load_color_mode_derivation false).1,
   (load_color_mode_derivation true).2.2.1 (some "auto") (by decide) (by decide)⟩

/-! ## Onboarding claim theorem -/

/-- Claim C7: The onboarding mutation posts `client_id`, `name`, `username`
and `password` to `"/onboarding"`; on success it calls `storeTokens` with
the response data and shows the success toast `"User created successfully"`;
on error it shows an error toast containing the server's `error` field when
`error.response.data.error` is present, and otherwise the generic message
`"An error occurred: "` followed by `error.message`. -/
theorem onboarding_outcome_handling (cid : String) (v : OnboardingVariables)
    (data : OnboardingResponse) (e : APIErrorResponse) :
    onboardingRequest cid v =
      { url := "/onboarding"
        body := [("client_id", cid), ("name", v.name),
                 ("username", v.username), ("password", v.password)] } ∧
    onboardingOnSuccess data =
      [OnboardingEffect.storeTokens data,
       OnboardingEffect.toastSuccess "User created successfully"] ∧
    onboardingOnError e = [OnboardingEffect.toastError (onboardingErrorMessage e)] ∧
    (∀ r err, e.response = some r → r.data.error = some err →
      err.toList <:+: (onboardingErrorMessage e).toList) ∧
    (e.response = none →
      onboardingErrorMessage e = "An error occurred: " ++ e.message) ∧
    (∀ r, e.response = some r → r.data.error = none →
      onboardingErrorMessage e = "An error occurred: " ++ e.message) := by
  refine ⟨rfl, rfl, rfl, ?_, ?_, ?_⟩
  · intro r err hr herr
    simp only [onboardingErrorMessage, hr, herr]
    by_cases he : (err != "") = true
    · rw [if_pos he]
      exact ⟨"Error creating user: ".toList, [], by simp [String.toList]⟩
    · rw [Bool.not_eq_true] at he
      rw [he]
      have : err = "" := bne_eq_false_iff_eq.1 he
      rw [this]
      exact List.nil_infix
  · intro hr
    simp only [onboardingErrorMessage, hr]
  · intro r hr herr
    simp only [onboardingErrorMessage, hr, herr]

/-- Closed instance of `onboarding_outcome_handling`: the toast contains the
server error field when one is present, and is the generic message when the
error has no response. -/
theorem onboarding_outcome_handling_witness :
    ("denied".toList <:+:
      (onboardingErrorMessage ⟨"boom", some ⟨⟨some "denied"⟩⟩⟩).toList) ∧
    onboardingErrorMessage ⟨"net", none⟩ = "An error occurred: " ++ "net" :=
  ⟨(onboarding_outcome_handling "c" ⟨"n", "u", "p"⟩ ⟨"t"⟩
      ⟨"boom", some ⟨⟨some "denied"⟩⟩⟩).2.2.2.1 ⟨⟨some "denied"⟩⟩ "denied" rfl rfl,
   (onboarding_outcome_handling "c" ⟨"n", "u", "p"⟩ ⟨"t"⟩
      ⟨"net", none⟩).2.2.2.2.1 rfl⟩

/-! ## video.js claim theorems -/

/-- Claim C8 (amended): `getRecordingVideoJSOptions` produces exactly one
source, of type `"application/x-mpegURL"`, whose `src` is `hls_url` with
`"?token="` and the token appended when a non-empty auth token is provided,
and is exactly `hls_url` when no token or an empty token is provided. -/
theorem hls_source_construction (recording : Recording)
    (auth_token : Option String) :
    ((getRecordingVideoJSOptions recording auth_token).sources.length = 1) ∧
    (∀ s ∈ (getRecordingVideoJSOptions recording auth_token).sources,
      s.type = "application/x-mpegURL") ∧
    (∀ t, auth_token = some t → t ≠ "" →
      (getRecordingVideoJSOptions recording auth_token).sources =
        [⟨recording.hls_url ++ ("?token=" ++ t), "application/x-mpegURL"⟩]) ∧
    (auth_token = none ∨ auth_token = some "" →
      (getRecordingVideoJSOptions recording auth_token).sources =
        [⟨recording.hls_url, "application/x-mpegURL"⟩]) := by
  have hsrc : (getRecordingVideoJSOptions recording auth_token).sources =
      [⟨recording.hls_url ++
          (if jsTruthy auth_token then "?token=" ++ auth_token.getD "" else ""),
        "application/x-mpegURL"⟩] := rfl
  refine ⟨by rw [hsrc]; rfl, ?_, ?_, ?_⟩
  · intro s hs
    rw [hsrc, List.mem_singleton] at hs
    rw [hs]
  · intro t ht hne
    rw [hsrc, ht]
    have : jsTruthy (some t) = true := by simp [jsTruthy, hne]
    rw [this, if_pos rfl]
    rfl
  · intro h
    rcases h with h | h <;> rw [hsrc, h]
    · simp [jsTruthy]
    · simp [jsTruthy]

/-- Closed instance of `hls_source_construction`: a non-empty token is
appended after `"?token="`, and no token leaves the URL untouched. -/
theorem hls_source_construction_witness :
    (getRecordingVideoJSOptions ⟨"http://h/x.m3u8", "t.jpg"⟩ (some "tok")).sources =
      [⟨"http://h/x.m3u8" ++ ("?token=" ++ "tok"), "application/x-mpegURL"⟩] ∧
    (getRecordingVideoJSOptions ⟨"http://h/x.m3u8", "t.jpg"⟩ none).sources =
      [⟨"http://h/x.m3u8", "application/x-mpegURL"⟩] :=
  ⟨(hls_source_construction ⟨"http://h/x.m3u8", "t.jpg"⟩ (some "tok")).2.2.1
      "tok" rfl (by decide),
   (hls_source_construction ⟨"http://h/x.m3u8", "t.jpg"⟩ none).2.2.2 (Or.inl rfl)⟩

/-- Claim C8 (counterexample): With a provided but empty auth token the code
appends nothing (the empty string is falsy), while the claim as stated
demands `hls_url ++ "?token=" ++ token`. -/
theorem hls_source_construction_counterexample :
    (getRecordingVideoJSOptions ⟨"http://h/x.m3u8", "t.jpg"⟩ (some "")).sources.map
        (fun s => s.src) = ["http://h/x.m3u8"] ∧
    "http://h/x.m3u8" ≠ "http://h/x.m3u8" ++ ("?token=" ++ "") := by
  decide

/-! ## Split/join lemmas for the URL helpers -/

theorem splitOnChar_nil (sep : Char) : splitOnChar sep [] = [[]] := rfl

theorem splitOnChar_cons (sep c : Char) (rest : Str) :
    splitOnChar sep (c :: rest) =
      if c = sep then [] :: splitOnChar sep rest
      else List.modifyHead (fun t => c :: t) (splitOnChar sep rest) := rfl

theorem splitOnChar_ne_nil (sep : Char) (s : Str) : splitOnChar sep s ≠ [] := by
  induction s with
  | nil => simp [splitOnChar]
  | cons c rest ih =>
    rw [splitOnChar_cons]
    by_cases h : c = sep
    · simp [h]
    · rw [if_neg h]
      cases hs : splitOnChar sep rest with
      | nil => exact absurd hs ih
      | cons t ts => simp

theorem mem_of_mem_splitOnChar {sep : Char} {s : Str} :
    ∀ x ∈ splitOnChar sep s, ∀ a ∈ x, a ∈ s := by
  induction s with
  | nil =>
    intro x hx a ha
    rw [splitOnChar_nil, List.mem_singleton] at hx
    subst hx
    exact absurd ha (List.not_mem_nil a)
  | cons c rest ih =>
    intro x hx a ha
    rw [splitOnChar_cons] at hx
    by_cases h : c = sep
    · rw [if_pos h, List.mem_cons] at hx
      rcases hx with hx | hx
      · subst hx
        exact absurd ha (List.not_mem_nil a)
      · exact List.mem_cons_of_mem c (ih x hx a ha)
    · rw [if_neg h] at hx
      cases hs : splitOnChar sep rest with
      | nil => exact absurd hs (splitOnChar_ne_nil sep rest)
      | cons t ts =>
        rw [hs, List.modifyHead_cons, List.mem_cons] at hx
        rcases hx with hx | hx
        · subst hx
          rw [List.mem_cons] at ha
          rcases ha with ha | ha
          · exact ha ▸ List.mem_cons_self c rest
          · exact List.mem_cons_of_mem c
              (ih t (hs ▸ List.mem_cons_self t ts) a ha)
        · exact List.mem_cons_of_mem c
            (ih x (hs ▸ List.mem_cons_of_mem t hx) a ha)

theorem sep_not_mem_splitOnChar {sep : Char} {s : Str} :
    ∀ x ∈ splitOnChar sep s, sep ∉ x := by
  induction s with
  | nil =>
    intro x hx
    rw [splitOnChar_nil, List.mem_singleton] at hx
    subst hx
    exact List.not_mem_nil sep
  | cons c rest ih =>
    intro x hx
    rw [splitOnChar_cons] at hx
    by_cases h : c = sep
    · rw [if_pos h, List.mem_cons] at hx
      rcases hx with hx | hx
      · subst hx
        exact List.not_mem_nil sep
      · exact ih x hx
    · rw [if_neg h] at hx
      cases hs : splitOnChar sep rest with
      | nil => exact absurd hs (splitOnChar_ne_nil sep rest)
      | cons t ts =>
        rw [hs, List.modifyHead_cons, List.mem_cons] at hx
        rcases hx with hx | hx
        · subst hx
          rw [List.mem_cons]
          rintro (hc | hc)
          · exact h hc.symm
          · exact ih t (hs ▸ List.mem_cons_self t ts) hc
        · exact ih x (hs ▸ List.mem_cons_of_mem t hx)

theorem splitOnChar_of_not_mem {sep : Char} {s : Str} (h : sep ∉ s) :
    splitOnChar sep s = [s] := by
  induction s with
  | nil => rfl
  | cons c rest ih =>
    rw [List.mem_cons] at h
    push_neg at h
    rw [splitOnChar_cons, if_neg (fun hc => h.1 hc.symm), ih h.2,
      List.modifyHead_cons]

theorem splitOnChar_append_cons (sep : Char) {a : Str} (h : sep ∉ a) (b : Str) :
    splitOnChar sep (a ++ sep :: b) = a :: splitOnChar sep b := by
  induction a with
  | nil =>
    rw [List.nil_append, splitOnChar_cons, if_pos rfl]
  | cons c a' ih =>
    rw [List.mem_cons] at h
    push_neg at h
    rw [List.cons_append, splitOnChar_cons, if_neg (fun hc => h.1 hc.symm),
      ih h.2, List.modifyHead_cons]

theorem joinChar_nil (sep : Char) : joinChar sep [] = [] := rfl

theorem joinChar_single (sep : Char) (x : Str) : joinChar sep [x] = x := rfl

theorem joinChar_cons_cons (sep : Char) (x y : Str) (xs : List Str) :
    joinChar sep (x :: y :: xs) = x ++ sep :: joinChar sep (y :: xs) := rfl

theorem splitOnChar_joinChar {sep : Char} {ls : List Str}
    (h : ∀ x ∈ ls, sep ∉ x) (hne : ls ≠ []) :
    splitOnChar sep (joinChar sep ls) = ls := by
  induction ls with
  | nil => exact absurd rfl hne
  | cons x xs ih =>
    cases xs with
    | nil =>
      rw [joinChar_single]
      exact splitOnChar_of_not_mem (h x (List.mem_cons_self x []))
    | cons y ys =>
      rw [joinChar_cons_cons,
        splitOnChar_append_cons sep (h x (List.mem_cons_self x (y :: ys))),
        ih (fun z hz => h z (List.mem_cons_of_mem x hz)) (by simp)]

theorem mem_joinChar {sep : Char} {ls : List Str} {a : Char}
    (ha : a ∈ joinChar sep ls) : a = sep ∨ ∃ x ∈ ls, a ∈ x := by
  induction ls with
  | nil => exact absurd ha (List.not_mem_nil a)
  | cons x xs ih =>
    cases xs with
    | nil =>
      rw [joinChar_single] at ha
      exact Or.inr ⟨x, List.mem_cons_self x [], ha⟩
    | cons y ys =>
      rw [joinChar_cons_cons, List.mem_append, List.mem_cons] at ha
      rcases ha with ha | ha | ha
      · exact Or.inr ⟨x, List.mem_cons_self x (y :: ys), ha⟩
      · exact Or.inl ha
      · rcases ih ha with hs | ⟨z, hz, haz⟩
        · exact Or.inl hs
        · exact Or.inr ⟨z, List.mem_cons_of_mem x hz, haz⟩

theorem length_splitOnChar (sep : Char) (s : Str) :
    (splitOnChar sep s).length = s.count sep + 1 := by
  induction s with
  | nil => rfl
  | cons c rest ih =>
    rw [splitOnChar_cons, List.count_cons]
    by_cases h : c = sep
    · rw [if_pos h, if_pos (by simp [h]), List.length_cons, ih]
    · rw [if_neg h, if_neg (by simp [h]), List.length_modifyHead, ih]

theorem paramPrefix_isPrefixOf_nil (parameter : Str) :
    ((parameter ++ ['=']).isPrefixOf ([] : Str)) = false := by
  cases parameter <;> rfl

/-- Query-parameter preservation for URLs with at most one `"?"`: the
parameters of the result are exactly the original parameters that do not
start with `parameter ++ "="`, in order. -/
theorem queryParams_removeURLParameter (url parameter : Str)
    (hc : url.count '?' ≤ 1) :
    queryParams (removeURLParameter url parameter) =
      (queryParams url).filter (fun p => !((parameter ++ ['=']).isPrefixOf p)) := by
  have hlen := length_splitOnChar '?' url
  rcases hsplit : splitOnChar '?' url with _ | ⟨b, _ | ⟨q, rest⟩⟩
  · exact absurd hsplit (splitOnChar_ne_nil '?' url)
  · have hres : removeURLParameter url parameter = url := by
      simp only [removeURLParameter, hsplit]
    have hqp : queryParams url = [] := by
      simp only [queryParams, afterFirstQuestion, hsplit]
    rw [hres, hqp]
    rfl
  · have hlen0 : rest.length = 0 := by
      rw [hsplit] at hlen
      simp at hlen
      omega
    have hrest : rest = [] := List.length_eq_zero.1 hlen0
    subst hrest
    have hqb : ('?' : Char) ∉ b :=
      sep_not_mem_splitOnChar b (hsplit ▸ List.mem_cons_self b [q])
    have hqq : ('?' : Char) ∉ q :=
      sep_not_mem_splitOnChar q
        (hsplit ▸ List.mem_cons_of_mem b (List.mem_cons_self q []))
    have hquery : queryParams url = splitOnChar '&' q := by
      simp only [queryParams, afterFirstQuestion, hsplit, joinChar_single]
    by_cases hq0 : q = []
    · subst hq0
      have hres : removeURLParameter url parameter = url := by
        simp only [removeURLParameter, hsplit]
        exact if_pos trivial
      rw [hres, hquery]
      simp [splitOnChar_nil, paramPrefix_isPrefixOf_nil]
    · by_cases hp : (splitOnChar '&' q).filter
          (fun p => !((parameter ++ ['=']).isPrefixOf p)) = []
      · have hres : removeURLParameter url parameter = b := by
          simp only [removeURLParameter, hsplit]
          rw [if_neg hq0, if_pos hp]
        rw [hres, hquery, hp]
        simp only [queryParams, afterFirstQuestion, splitOnChar_of_not_mem hqb]
      · have hres : removeURLParameter url parameter =
            b ++ '?' :: joinChar '&' ((splitOnChar '&' q).filter
              (fun p => !((parameter ++ ['=']).isPrefixOf p))) := by
          simp only [removeURLParameter, hsplit]
          rw [if_neg hq0, if_neg hp]
        rw [hres, hquery]
        have hampnot : ∀ x ∈ (splitOnChar '&' q).filter
            (fun p => !((parameter ++ ['=']).isPrefixOf p)), ('&' : Char) ∉ x :=
          fun x hx => sep_not_mem_splitOnChar x (List.mem_of_mem_filter hx)
        have hjq : ('?' : Char) ∉ joinChar '&' ((splitOnChar '&' q).filter
            (fun p => !((parameter ++ ['=']).isPrefixOf p))) := by
          intro hmem
          rcases mem_joinChar hmem with hsep | ⟨x, hx, hax⟩
          · exact absurd hsep (by decide)
          · exact hqq (mem_of_mem_splitOnChar x (List.mem_of_mem_filter hx) '?' hax)
        have hsplit2 : splitOnChar '?' (b ++ '?' :: joinChar '&'
            ((splitOnChar '&' q).filter
              (fun p => !((parameter ++ ['=']).isPrefixOf p)))) =
            [b, joinChar '&' ((splitOnChar '&' q).filter
              (fun p => !((parameter ++ ['=']).isPrefixOf p)))] := by
          rw [splitOnChar_append_cons '?' hqb, splitOnChar_of_not_mem hjq]
        simp only [queryParams, afterFirstQuestion, hsplit2, joinChar_single]
        rw [splitOnChar_joinChar hampnot hp]

/-- `removeURLParameter` is idempotent on every URL. -/
theorem removeURLParameter_idem (url parameter : Str) :
    removeURLParameter (removeURLParameter url parameter) parameter =
      removeURLParameter url parameter := by
  rcases hsplit : splitOnChar '?' url with _ | ⟨b, _ | ⟨q, rest⟩⟩
  · exact absurd hsplit (splitOnChar_ne_nil '?' url)
  · have hres : removeURLParameter url parameter = url := by
      simp only [removeURLParameter, hsplit]
    rw [hres]
    exact hres
  · have hqb : ('?' : Char) ∉ b :=
      sep_not_mem_splitOnChar b (hsplit ▸ List.mem_cons_self b (q :: rest))
    have hqq : ('?' : Char) ∉ q :=
      sep_not_mem_splitOnChar q
        (hsplit ▸ List.mem_cons_of_mem b (List.mem_cons_self q rest))
    by_cases hq0 : q = []
    · have hres : removeURLParameter url parameter = url := by
        simp only [removeURLParameter, hsplit]
        rw [if_pos hq0]
      rw [hres]
      exact hres
    · by_cases hp : (splitOnChar '&' q).filter
          (fun p => !((parameter ++ ['=']).isPrefixOf p)) = []
      · have hres : removeURLParameter url parameter = b := by
          simp only [removeURLParameter, hsplit]
          rw [if_neg hq0, if_pos hp]
        rw [hres]
        simp only [removeURLParameter, splitOnChar_of_not_mem hqb]
      · have hres : removeURLParameter url parameter =
            b ++ '?' :: joinChar '&' ((splitOnChar '&' q).filter
              (fun p => !((parameter ++ ['=']).isPrefixOf p))) := by
          simp only [removeURLParameter, hsplit]
          rw [if_neg hq0, if_neg hp]
        rw [hres]
        have hampnot : ∀ x ∈ (splitOnChar '&' q).filter
            (fun p => !((parameter ++ ['=']).isPrefixOf p)), ('&' : Char) ∉ x :=
          fun x hx => sep_not_mem_splitOnChar x (List.mem_of_mem_filter hx)
        have hjq : ('?' : Char) ∉ joinChar '&' ((splitOnChar '&' q).filter
            (fun p => !((parameter ++ ['=']).isPrefixOf p))) := by
          intro hmem
          rcases mem_joinChar hmem with hsep | ⟨x, hx, hax⟩
          · exact absurd hsep (by decide)
          · exact hqq (mem_of_mem_splitOnChar x (List.mem_of_mem_filter hx) '?' hax)
        have hsplit2 : splitOnChar '?' (b ++ '?' :: joinChar '&'
            ((splitOnChar '&' q).filter
              (fun p => !((parameter ++ ['=']).isPrefixOf p)))) =
            [b, joinChar '&' ((splitOnChar '&' q).filter
              (fun p => !((parameter ++ ['=']).isPrefixOf p)))] := by
          rw [splitOnChar_append_cons '?' hqb, splitOnChar_of_not_mem hjq]
        simp only [removeURLParameter, hsplit2]
        by_cases hj0 : joinChar '&' ((splitOnChar '&' q).filter
            (fun p => !((parameter ++ ['=']).isPrefixOf p))) = []
        · rw [if_pos hj0]
        · rw [if_neg hj0, splitOnChar_joinChar hampnot hp,
            List.filter_eq_self.2 (fun a ha => (List.mem_filter.1 ha).2), if_neg hp]

/-! ## URL-helper claim theorems -/

/-- Claim C10 (amended): For a URL containing at most one `"?"`, the result of
`removeURLParameter` contains no query parameter starting with the parameter
name followed by `"="` and preserves all other query parameters in order;
a URL without `"?"` is returned unchanged, as is a URL whose query string is
empty (a bare trailing `"?"` is kept); when the query string is non-empty
and every parameter is removed the `"?"` is dropped; and the function is
idempotent on every URL. -/
theorem remove_url_parameter_postconditions (url parameter : Str) :
    (url.count '?' ≤ 1 →
      ∀ x ∈ queryParams (removeURLParameter url parameter),
        ((parameter ++ ['=']).isPrefixOf x) = false) ∧
    (url.count '?' ≤ 1 →
      queryParams (removeURLParameter url parameter) =
        (queryParams url).filter (fun p => !((parameter ++ ['=']).isPrefixOf p))) ∧
    ('?' ∉ url → removeURLParameter url parameter = url) ∧
    (∀ base, splitOnChar '?' url = [base, []] →
      removeURLParameter url parameter = url) ∧
    (∀ base q, splitOnChar '?' url = [base, q] → q ≠ [] →
      (splitOnChar '&' q).filter (fun p => !((parameter ++ ['=']).isPrefixOf p)) = [] →
      removeURLParameter url parameter = base) ∧
    removeURLParameter (removeURLParameter url parameter) parameter =
      removeURLParameter url parameter := by
  refine ⟨?_, fun hc => queryParams_removeURLParameter url parameter hc,
    ?_, ?_, ?_, removeURLParameter_idem url parameter⟩
  · intro hc x hx
    rw [queryParams_removeURLParameter url parameter hc] at hx
    have hpx := List.of_mem_filter hx
    simpa using hpx
  · intro h
    simp only [removeURLParameter, splitOnChar_of_not_mem h]
  · intro base hsp
    simp only [removeURLParameter, hsp]
    exact if_pos trivial
  · intro base q hsp hq0 hfil
    simp only [removeURLParameter, hsp]
    rw [if_neg hq0, if_pos hfil]

/-- Closed instance of `remove_url_parameter_postconditions`: the `x`
parameter is removed from `"a?x=1&y=2"` with `"y=2"` preserved, and a URL
without a query is untouched. -/
theorem remove_url_parameter_postconditions_witness :
    queryParams (removeURLParameter ("a?x=1&y=2".toList) ("x".toList)) =
      (queryParams ("a?x=1&y=2".toList)).filter
        (fun p => !((("x".toList) ++ ['=']).isPrefixOf p)) ∧
    removeURLParameter ("abc".toList) ("x".toList) = "abc".toList :=
  ⟨(remove_url_parameter_postconditions ("a?x=1&y=2".toList) ("x".toList)).2.1
      (by decide),
   (remove_url_parameter_postconditions ("abc".toList) ("x".toList)).2.2.1
      (by decide)⟩

/-- Claim C10 (counterexample): With two `"?"` in the URL the claim as stated
fails: `"a?x=1?y=2"` has the single query parameter `"x=1?y=2"`, which does
not start with `"z="`, yet `removeURLParameter` with parameter `"z"`
truncates the URL to `"a?x=1"` instead of preserving it. -/
theorem remove_url_parameter_counterexample :
    removeURLParameter ("a?x=1?y=2".toList) ("z".toList) = "a?x=1".toList ∧
    queryParams ("a?x=1?y=2".toList) = ["x=1?y=2".toList] ∧
    (queryParams ("a?x=1?y=2".toList)).filter
      (fun p => !((("z".toList) ++ ['=']).isPrefixOf p)) = ["x=1?y=2".toList] ∧
    queryParams (removeURLParameter ("a?x=1?y=2".toList) ("z".toList)) =
      ["x=1".toList] := by
  decide
